import Mathlib

/-!
# Verification of the PyB4ML belief-propagation / bucket-elimination core

Shallow embedding of `pyb4ml/inference/factored/belief_propagation.py` (class
`BP`) and `pyb4ml/inference/factored/bucket.py` (class `Bucket`).

Python floats are modelled by real numbers; `math.fsum` over a finite iterable
becomes `List.sum`; `math.log`, which raises `ValueError: math domain error`
on a non-positive argument, becomes `safeLog : ℝ → Except BPNumError ℝ`;
`math.exp` becomes `Real.exp`.  Categorical domain values are modelled by `ℤ`.

Classes of this repository that the two source files use but that are not part
of the source under verification (`Variable`, `Factor`, `Message`, `Messages`,
`FactoredAlgorithm`) are modelled from the spec; each such definition carries a
doc comment starting with `Modelled from the spec:`.
-/

namespace PyB4ML

/-- A categorical domain value (Python values are modelled by integers). -/
abbrev Val := ℤ

/-- Modelled from the spec: the `Variable` class
(`pyb4ml/modeling/categorical/variable.py`, not under verification).
"Variable: identity (name), an ordered finite domain of values, ...
an evidence flag (fixed to a single observed value when evidentiary)".
The incident-factor set and the traversal fields live in the engine's
graph/state model below. -/
structure Var where
  id : ℕ
  domain : List Val
  evidential : Bool
  observed : Val
deriving Repr, DecidableEq

/-- Python `max` over a list: on a nonempty list the greatest element,
on the empty list (where Python raises `ValueError`) the junk value `0`.
Theorems that depend on the maximum carry nonemptiness hypotheses so that
only the Python-defined case is used. -/
def listMax : List ℝ → ℝ
  | [] => 0
  | x :: xs => xs.foldl max x

/-- Errors raised during a run, modelled after the Python exceptions. -/
inductive BPNumError where
  /-- `math.log` applied to a non-positive argument
  (`ValueError: math domain error`). -/
  | mathDomain
deriving Repr, DecidableEq

/-- Python `math.log`: returns the real logarithm on a strictly positive argument and
raises `math domain error` otherwise. -/
noncomputable def safeLog (x : ℝ) : Except BPNumError ℝ :=
  if 0 < x then .ok (Real.log x) else .error .mathDomain

/-- Modelled from the spec: `Variable.evaluate_variables`
(not under verification): the cross product of the variables' domains —
"Σ over all joint free-variable assignments" — as the list of value tuples,
first variable's value varying outermost as in `itertools.product`. -/
def evaluateVariables : List Var → List (List Val)
  | [] => [[]]
  | v :: vs => v.domain.flatMap (fun x => (evaluateVariables vs).map (fun xs => x :: xs))

/-! ## Distribution assembly (`BP._compute_distribution`)

```python
nn_values = {value: math.exp(math.fsum(message(value) for message in factor_to_query_messages))
             for value in self._query_variable.domain}
norm_const = math.fsum(nn_values[value] for value in self._query_variable.domain)
self._distribution = {(value, ): nn_values[value] / norm_const
                      for value in self._query_variable.domain}
```

The incoming factor-to-query messages are modelled as functions `Val → ℝ`
(the `Message` objects' value mappings); the resulting Python dict with
length-one tuple keys is modelled as an association list keyed by
length-one value lists. -/

/-- The non-normalized value `nn_values[value]` for one query-domain value. -/
noncomputable def nnValue (msgs : List (Val → ℝ)) (v : Val) : ℝ :=
  Real.exp ((msgs.map (fun m => m v)).sum)

/-- The normalization constant `norm_const`. -/
noncomputable def normConst (msgs : List (Val → ℝ)) (domain : List Val) : ℝ :=
  (domain.map (nnValue msgs)).sum

/-- Source `BP._compute_distribution`: the final distribution, a mapping from each
query-domain value wrapped as a length-one tuple to its normalized
probability. -/
noncomputable def computeDistribution (msgs : List (Val → ℝ)) (domain : List Val) :
    List (List Val × ℝ) :=
  domain.map (fun v => ([v], nnValue msgs v / normConst msgs domain))

/-! ## Python dict comprehensions with fallible values

A Python dict comprehension `{key: expr(key) for key in keys}` whose value
expression may raise evaluates left to right and propagates the first
exception.  `mapValuesDict` models this for `Except`-valued expressions,
returning the association list of keys and values. -/

/-- Build the association list `{k: value}` for each key in order, propagating
the first error raised by the value expression. -/
def mapValuesDict {κ : Type} (g : κ → Except BPNumError ℝ) :
    List κ → Except BPNumError (List (κ × ℝ))
  | [] => .ok []
  | k :: ks => do
    let r ← g k
    let rest ← mapValuesDict g ks
    pure ((k, r) :: rest)

/-! ## Variable-to-factor messages
(`BP._compute_variable_to_factor_message_from_leaf`,
`BP._compute_variable_to_factor_message_not_from_leaf`)

```python
values = {value: 0 for value in from_variable.domain}                      # leaf
from_factors = tuple(factor for factor in from_variable.factors if factor is not to_factor)
values = {value: math.fsum(message(value) for message in <messages from from_factors>)
          for value in from_variable.domain}                               # interior
```

Factors are identified by their ids; `incoming fid` is the cached
factor-to-variable message from factor `fid` into the variable. -/

/-- The leaf variable-to-factor message: identically zero on the domain. -/
def variableToFactorMessageFromLeaf (x : Var) : List (Val × ℝ) :=
  x.domain.map (fun v => (v, 0))

/-- The interior variable-to-factor message from `x` (incident factor ids
`xFactors`) to the factor `toFactor`: for each domain value, the sum of the
incoming messages from every incident factor other than `toFactor`. -/
noncomputable def variableToFactorMessageNotFromLeaf (x : Var) (xFactors : List ℕ)
    (toFactor : ℕ) (incoming : ℕ → Val → ℝ) : List (Val × ℝ) :=
  x.domain.map (fun v =>
    (v, ((xFactors.filter (fun fid => fid != toFactor)).map (fun fid => incoming fid v)).sum))

/-! ## Factor-to-variable messages
(`BP._compute_factor_to_variable_message_from_leaf`,
`BP._compute_factor_to_variable_message_not_from_leaf`)

The factor's evaluation function `f` is applied exactly as in the source: to
the binding of the free (non-evidential) variables paired with their assigned
values, followed by the destination variable paired with its value (the
evidential variables' fixed values are resolved inside the `Factor` object,
which is outside the verified source). Incoming variable-to-factor messages
are supplied in the order of their variables, as returned by
`Messages.get_from_nodes_to_node`. -/

/-- The leaf factor-to-variable message:
`{value: math.log(from_factor((to_variable, value))) for value in to_variable.domain}`. -/
noncomputable def factorToVariableMessageFromLeaf (f : List (Var × Val) → ℝ) (x : Var) :
    Except BPNumError (List (Val × ℝ)) :=
  mapValuesDict (fun v => safeLog (f [(x, v)])) x.domain

/-- The stabilization shift `max_message`: the maximum incoming free-message
value over the messages' variables' domains, or `0` when there are no free
incoming messages. -/
noncomputable def maxMessage (freeVars : List Var) (freeMsgs : List (Val → ℝ)) : ℝ :=
  if 0 < freeMsgs.length then
    listMax ((freeVars.zip freeMsgs).flatMap (fun p => p.1.domain.map p.2))
  else 0

/-- Source `tuple(variable.domain[0] for variable in from_evidential_variables)`:
the fixed values at which the evidential incoming messages are evaluated —
the FIRST element of each evidential variable's domain. -/
def evidentialValues (evidVars : List Var) : List Val :=
  evidVars.map (fun w => w.domain.headI)

/-- Source `evidential_messages_sum`: the sum of the evidential variables' incoming
message values at the first elements of their domains. -/
noncomputable def evidentialMessagesSum (evidVars : List Var) (evidMsgs : List (Val → ℝ)) : ℝ :=
  ((evidMsgs.zip (evidentialValues evidVars)).map (fun p => p.1 p.2)).sum

/-- The spec-intended evidential sum: each evidential incoming message
evaluated at the variable's OBSERVED value (used to compare against the
source's use of `domain[0]` for claim C10). -/
noncomputable def evidentialMessagesSumAtObserved (evidVars : List Var)
    (evidMsgs : List (Val → ℝ)) : ℝ :=
  ((evidMsgs.zip (evidVars.map (fun w => w.observed))).map (fun p => p.1 p.2)).sum

/-- The argument of the logarithm in the interior factor-to-variable rule at
destination value `v`: the sum over all joint free-variable assignments of the
factor value times `exp` of the incoming free messages' sum shifted by `M`. -/
noncomputable def interiorLogArg (f : List (Var × Val) → ℝ) (freeVars : List Var)
    (freeMsgs : List (Val → ℝ)) (M : ℝ) (x : Var) (v : Val) : ℝ :=
  ((evaluateVariables freeVars).map (fun a =>
    f ((freeVars.zip a) ++ [(x, v)])
      * Real.exp (((freeMsgs.zip a).map (fun p => p.1 p.2)).sum - M))).sum

/-- The interior factor-to-variable message from a factor (evaluation `f`,
free other variables `freeVars` with incoming messages `freeMsgs`, evidential
other variables `evidVars` with incoming messages `evidMsgs`) to its one
remaining unpassed variable `x`. -/
noncomputable def factorToVariableMessageNotFromLeaf (f : List (Var × Val) → ℝ)
    (freeVars : List Var) (freeMsgs : List (Val → ℝ))
    (evidVars : List Var) (evidMsgs : List (Val → ℝ)) (x : Var) :
    Except BPNumError (List (Val × ℝ)) :=
  let M := maxMessage freeVars freeMsgs
  let evidSum := evidentialMessagesSum evidVars evidMsgs
  mapValuesDict (fun v => do
    let lg ← safeLog (interiorLogArg f freeVars freeMsgs M x v)
    pure (evidSum + M + lg)) x.domain

/-! ## Elimination bucket (`Bucket.compute_output_log_factor`)

```python
input_log_factors = {value: tuple(log_factor(*log_factor.filter_values(*free_variables_with_values),
                                             (self._variable, value))
                                  for log_factor in self._input_log_factors)
                     for value in self._variable.domain}
max_log_factor = max(max(input_log_factors[value]) for value in self._variable.domain)
function_value_dict[free_values] = max_log_factor + math.log(
    math.fsum(math.exp(math.fsum(input_log_factors[value]) - max_log_factor)
              for value in self._variable.domain))
```

The produced output `Factor` wraps `function_value_dict` as a lookup
(`lambda *values: function_value_dict[values]`); the dict itself is the
verified object. -/

/-- An input log-factor of a bucket: its incident variables and its
evaluation function on a binding. -/
structure LogFactor where
  vars : List Var
  fn : List (Var × Val) → ℝ

/-- Modelled from the spec: `Factor.filter_values`
(not under verification) — "a `filter_values` helper selecting the subset of
a binding relevant to that factor's variables". -/
def filterValues (fvars : List Var) (binding : List (Var × Val)) : List (Var × Val) :=
  binding.filter (fun p => fvars.contains p.1)

/-- The `Bucket` state after `set_evidential_and_free_variables`: its own
variable, the input log-factors, and the evidential / free partition of the
inputs' other variables. -/
structure Bucket where
  bucketVariable : Var
  inputLogFactors : List LogFactor
  evidentialVariables : List Var
  freeVariables : List Var

/-- Source `input_log_factors[value]` for one free-variable binding `fvw`: each input
log-factor evaluated at its filtered free binding plus the bucket variable set
to `value`. -/
noncomputable def bucketInputValues (b : Bucket) (fvw : List (Var × Val)) (value : Val) :
    List ℝ :=
  b.inputLogFactors.map (fun lf =>
    lf.fn (filterValues lf.vars fvw ++ [(b.bucketVariable, value)]))

/-- Source `max_log_factor`: the maximum input-log-factor value over all bucket
variable values, used for the max-shift stabilization. -/
noncomputable def bucketMaxLogFactor (b : Bucket) (fvw : List (Var × Val)) : ℝ :=
  listMax (b.bucketVariable.domain.map (fun value => listMax (bucketInputValues b fvw value)))

/-- The output-factor value at one free-variable assignment:
`max + log(Σ_value exp(Σ inputs − max))`. -/
noncomputable def bucketOutputValue (b : Bucket) (freeValues : List Val) :
    Except BPNumError ℝ :=
  let fvw := b.freeVariables.zip freeValues
  let maxLog := bucketMaxLogFactor b fvw
  do
    let lg ← safeLog ((b.bucketVariable.domain.map (fun value =>
        Real.exp ((bucketInputValues b fvw value).sum - maxLog))).sum)
    pure (maxLog + lg)

/-- Source `Bucket.compute_output_log_factor`: the value dict of the output
log-factor over all joint free-variable assignments. -/
noncomputable def computeOutputLogFactor (b : Bucket) :
    Except BPNumError (List (List Val × ℝ)) :=
  mapValuesDict (bucketOutputValue b) (evaluateVariables b.freeVariables)

/-- The spec's brute-force reference value for the bucket output (the
refinement side of claim C3): "`log(Σ_v exp(Σ inputs at (assignment, v)))`
computed by brute force without stabilization". -/
noncomputable def bucketBruteForceValue (b : Bucket) (fv : List Val) : ℝ :=
  Real.log ((b.bucketVariable.domain.map (fun value =>
    Real.exp ((b.inputLogFactors.map (fun lf =>
      lf.fn (filterValues lf.vars (b.freeVariables.zip fv)
        ++ [(b.bucketVariable, value)]))).sum))).sum)

/-! ## Message store
(`BP._create_factor_to_variable_messages_cache_if_necessary` and the
check-then-cache pattern of every `BP._compute_*_message_*` method) -/

/-- Modelled from the spec: the `Message` value object
(`pyb4ml/inference/factored/factor_tree_messages.py`, not under
verification) — "identified by (origin node, destination node), carrying a
mapping from each value in the destination's domain to a real number". -/
structure Message where
  fromId : ℕ
  toId : ℕ
  values : List (Val × ℝ)

/-- Modelled from the spec: the `Messages` store (not under verification) —
"a per-evidence cache mapping an (origin-node, destination-node) pair to a
previously computed message; supports existence check, insertion". -/
structure Messages where
  entries : List ((ℕ × ℕ) × Message)

/-- Operation `Messages.contains(origin, destination)`. -/
def Messages.contains (ms : Messages) (fromId toId : ℕ) : Bool :=
  (ms.entries.lookup (fromId, toId)).isSome

/-- Operation `Messages.cache(message)`: insertion (write-once: the engine only calls
it after a negative `contains` check, so the key is fresh). -/
def Messages.cacheMsg (ms : Messages) (m : Message) : Messages :=
  ⟨((m.fromId, m.toId), m) :: ms.entries⟩

/-- A fresh, empty `Messages()` store. -/
def emptyMessages : Messages := ⟨[]⟩

/-- The check-then-cache pattern shared by all four
`BP._compute_*_message_*` methods:

```python
if not self._..._messages[self._evidence_tuples].contains(from_node, to_node):
    values = ...  # compute
    self._..._messages[self._evidence_tuples].cache(Message(from_node, to_node, values))
```

Returns the updated store and whether the message was freshly computed. -/
def computeMessageIfNecessary (ms : Messages) (fromId toId : ℕ) (values : List (Val × ℝ)) :
    Messages × Bool :=
  if ms.contains fromId toId then (ms, false)
  else (ms.cacheMsg ⟨fromId, toId, values⟩, true)

/-- One message-computing operation of a run: its (origin, destination) key and
the values the engine would compute for it. -/
structure MsgOp where
  fromId : ℕ
  toId : ℕ
  values : List (Val × ℝ)

/-- Execute a sequence of message-computing operations against a store,
counting how many times the message for the key `k` is freshly computed. -/
def countFresh (ms : Messages) (ops : List MsgOp) (k : ℕ × ℕ) : ℕ :=
  match ops with
  | [] => 0
  | op :: rest =>
    let r := computeMessageIfNecessary ms op.fromId op.toId op.values
    (if (op.fromId, op.toId) = k ∧ r.2 = true then 1 else 0) + countFresh r.1 rest k

/-- Source `BP._create_factor_to_variable_messages_cache_if_necessary` (and its
variable-to-factor twin): create an empty per-evidence store only when the
evidence key is absent.

```python
if self._evidence_tuples not in self._factor_to_variable_messages:
    self._factor_to_variable_messages[self._evidence_tuples] = Messages()
```
-/
def createMessagesCacheIfNecessary (caches : List (List (ℕ × Val) × Messages))
    (ev : List (ℕ × Val)) : List (List (ℕ × Val) × Messages) :=
  if (caches.lookup ev).isSome then caches else caches ++ [(ev, emptyMessages)]

/-! ## Traversal control of `BP.run`

The control flow of the main loop (`BP.run` lines 108–120 and the
`_propagate_*` / `_extend_next_*` / `_update_passing` helpers) on the
traversal-scoped fields `passed` and `incoming_messages_number`.  The numeric
message values computed at each propagation step are modelled by the
dedicated message definitions above; they do not influence the control flow.
Variables are indexed `0, …, numVars−1` and factors by their position in
`factors`; each factor is its list of incident variable indices. -/

/-- The factor-graph topology consumed from the Graph Model. -/
structure FGraph where
  numVars : ℕ
  factors : List (List ℕ)
deriving Repr, DecidableEq

/-- The incident factors of a variable (the variable's `factors` list). -/
def varFactors (g : FGraph) (vi : ℕ) : List ℕ :=
  (List.range g.factors.length).filter (fun fi => (g.factors.getD fi []).contains vi)

/-- Source `factor_leaves`: factors with exactly one incident variable. -/
def factorLeaves (g : FGraph) : List ℕ :=
  (List.range g.factors.length).filter (fun fi => (g.factors.getD fi []).length == 1)

/-- Source `variable_leaves`: variables with exactly one incident factor. -/
def variableLeaves (g : FGraph) : List ℕ :=
  (List.range g.numVars).filter (fun vi => (varFactors g vi).length == 1)

/-- The traversal-scoped mutable state: `passed` and
`incoming_messages_number` for every variable and factor, and the two
enqueue buffers `_next_factors` / `_next_variables`. -/
structure BPState where
  varPassed : List Bool
  varIncoming : List ℕ
  facPassed : List Bool
  facIncoming : List ℕ
  nextFactors : List ℕ
  nextVariables : List ℕ
deriving Repr, DecidableEq

/-- Source `BP._update_passing` for a factor-to-variable message: mark the factor
passed and increment the variable's incoming count. -/
def updatePassingFacToVar (s : BPState) (fi vi : ℕ) : BPState :=
  { s with facPassed := s.facPassed.set fi true,
           varIncoming := s.varIncoming.set vi ((s.varIncoming.getD vi 0) + 1) }

/-- Source `BP._update_passing` for a variable-to-factor message: mark the variable
passed and increment the factor's incoming count. -/
def updatePassingVarToFac (s : BPState) (vi fi : ℕ) : BPState :=
  { s with varPassed := s.varPassed.set vi true,
           facIncoming := s.facIncoming.set fi ((s.facIncoming.getD fi 0) + 1) }

/-- Source `BP._extend_next_variables`: enqueue the variable when it is not the query
and has exactly one incoming message missing. -/
def extendNextVariables (g : FGraph) (qv : ℕ) (s : BPState) (vi : ℕ) : BPState :=
  if vi ≠ qv ∧ (s.varIncoming.getD vi 0) + 1 = (varFactors g vi).length then
    { s with nextVariables := s.nextVariables ++ [vi] }
  else s

/-- Source `BP._extend_next_factors`: enqueue the factor when it has exactly one
incoming message missing. -/
def extendNextFactors (g : FGraph) (s : BPState) (fi : ℕ) : BPState :=
  if (s.facIncoming.getD fi 0) + 1 = (g.factors.getD fi []).length then
    { s with nextFactors := s.nextFactors ++ [fi] }
  else s

/-- Source `BP._propagate_factor_to_variable_message_not_from_leaf`: the destination
is the unique unpassed incident variable (`to_variable, = (...)`; `none`
models the `ValueError` when it is not unique); then update passing and
possibly enqueue the destination. -/
def propagateFactorToVariableNotFromLeaf (g : FGraph) (qv : ℕ) (s : BPState) (fi : ℕ) :
    Option BPState :=
  match (g.factors.getD fi []).filter (fun vi => !(s.varPassed.getD vi false)) with
  | [vi] => some (extendNextVariables g qv (updatePassingFacToVar s fi vi) vi)
  | _ => none

/-- Source `BP._propagate_variable_to_factor_message_not_from_leaf`: the destination
is the unique unpassed incident factor. -/
def propagateVariableToFactorNotFromLeaf (g : FGraph) (s : BPState) (vi : ℕ) :
    Option BPState :=
  match (varFactors g vi).filter (fun fi => !(s.facPassed.getD fi false)) with
  | [fi] => some (extendNextFactors g (updatePassingVarToFac s vi fi) fi)
  | _ => none

/-- One pass of the main `while` loop of `BP.run`: swap the enqueue buffers
into the from-buffers, clear them, then relay from every queued factor and
then from every queued variable. -/
def loopStep (g : FGraph) (qv : ℕ) (s : BPState) : Option BPState := do
  let fromFactors := s.nextFactors
  let fromVariables := s.nextVariables
  let s0 := { s with nextFactors := [], nextVariables := [] }
  let s1 ← fromFactors.foldlM (propagateFactorToVariableNotFromLeaf g qv) s0
  fromVariables.foldlM (propagateVariableToFactorNotFromLeaf g) s1

/-- Source `BP._get_running_condition`:
`self._query_variable.incoming_messages_number < self._query_variable.factors_number`. -/
def runningCondition (g : FGraph) (qv : ℕ) (s : BPState) : Bool :=
  decide ((s.varIncoming.getD qv 0) < (varFactors g qv).length)

/-- Source `BP._initialize_factor_passing` / `BP._initialize_variable_passing` and
the buffer resets: no node passed, no incoming messages, empty buffers. -/
def initState (g : FGraph) : BPState :=
  ⟨List.replicate g.numVars false, List.replicate g.numVars 0,
   List.replicate g.factors.length false, List.replicate g.factors.length 0, [], []⟩

/-- Source `BP._propagate_factor_to_variable_messages_from_leaves`: each leaf factor
relays to its sole variable. -/
def propagateFactorToVariableMessagesFromLeaves (g : FGraph) (qv : ℕ) (s : BPState) :
    BPState :=
  (factorLeaves g).foldl (fun s fi =>
    let vi := (g.factors.getD fi []).headD 0
    extendNextVariables g qv (updatePassingFacToVar s fi vi) vi) s

/-- Source `BP._propagate_variable_to_factor_messages_from_leaves`: each leaf
variable except the query relays to its sole factor. -/
def propagateVariableToFactorMessagesFromLeaves (g : FGraph) (qv : ℕ) (s : BPState) :
    BPState :=
  (variableLeaves g).foldl (fun s vi =>
    if vi = qv then s
    else
      let fi := (varFactors g vi).headD 0
      extendNextFactors g (updatePassingVarToFac s vi fi) fi) s

/-- Source `BP._initialize_main_loop`: reset every traversal field, then seed the
relay from the factor leaves and the variable leaves. -/
def initMainLoop (g : FGraph) (qv : ℕ) : BPState :=
  propagateVariableToFactorMessagesFromLeaves g qv
    (propagateFactorToVariableMessagesFromLeaves g qv (initState g))

/-- The fueled main loop of `BP.run`: the source's `while` loop has NO
iteration bound, so a run that exhausts any finite fuel while the running
condition still holds has not produced a result (`none`). -/
def runLoopFuel (g : FGraph) (qv : ℕ) : ℕ → BPState → Option BPState
  | 0, s => if runningCondition g qv s then none else some s
  | fuel + 1, s =>
    if runningCondition g qv s then
      match loopStep g qv s with
      | some s' => runLoopFuel g qv fuel s'
      | none => none
    else some s

/-! ## `BP.run`: validation and engine state

The three validation checks (`FactoredAlgorithm.check_non_empty_query`,
`check_one_variable_query`, `check_query_and_evidence_intersection`, not under
verification) are modelled from the spec: "Validate: exactly one query
variable; query and evidence variable sets are disjoint; fails otherwise with
a validation error."  They appear in `run` BEFORE any assignment to engine
state, in the source's order. -/

/-- The errors a run can surface. -/
inductive RunError where
  | emptyQuery
  | multiVariableQuery
  | queryAndEvidenceIntersect
  /-- The fueled loop did not reach the stop condition (in the source: the
  `while` loop never exits — the non-tree dead lock). -/
  | nonTree
deriving Repr, DecidableEq

/-- The engine state of a `BP` instance that `run` reads and mutates: the
query and evidence (set by the callers before `run`), the two evidence-keyed
message caches, the query-variable field and the distribution field (the
distribution's numeric content is modelled by `computeDistribution`; here
only its presence is tracked). -/
structure AlgState where
  query : List ℕ
  evidence : List (ℕ × Val)
  factorToVariableMessages : List (List (ℕ × Val) × Messages)
  variableToFactorMessages : List (List (ℕ × Val) × Messages)
  queryVariable : Option ℕ
  distribution : Option Unit

/-- Source `BP.run`: the three validation checks, then — only after all of them
succeed — the mutations: set the query variable, create the per-evidence
caches if necessary, clear the distribution, initialize and run the main
loop, and assemble the distribution.  A raised validation error leaves the
state exactly as it was. -/
def runBP (g : FGraph) (fuel : ℕ) (st : AlgState) : Except RunError Unit × AlgState :=
  if st.query.length = 0 then (.error .emptyQuery, st)
  else if 1 < st.query.length then (.error .multiVariableQuery, st)
  else if st.query.any (fun q => st.evidence.any (fun p => p.1 == q)) then
    (.error .queryAndEvidenceIntersect, st)
  else
    let qv := st.query.headD 0
    let st' := { st with
      queryVariable := some qv,
      factorToVariableMessages :=
        createMessagesCacheIfNecessary st.factorToVariableMessages st.evidence,
      variableToFactorMessages :=
        createMessagesCacheIfNecessary st.variableToFactorMessages st.evidence,
      distribution := none }
    match runLoopFuel g qv fuel (initMainLoop g qv) with
    | none => (.error .nonTree, st')
    | some _ => (.ok (), { st' with distribution := some () })

/-! ## Concrete instances used in witnesses and counterexamples -/

/-- A factor graph containing a cycle: two variables, two factors, both
factors incident to both variables. -/
def cyclicGraph : FGraph := ⟨2, [[0, 1], [0, 1]]⟩

/-- A non-evidential variable with the binary domain `[0, 1]`. -/
def witVar : Var := ⟨0, [0, 1], false, 0⟩

/-- A destination variable with the singleton domain `[0]`. -/
def cexX : Var := ⟨0, [0], false, 0⟩

/-- A free variable with the binary domain `[0, 1]`. -/
def cexY : Var := ⟨1, [0, 1], false, 0⟩

/-- A factor that is NEGATIVE at the assignment `cexY = 1` and positive
elsewhere. -/
noncomputable def cexF : List (Var × Val) → ℝ :=
  fun b => if (cexY, (1 : Val)) ∈ b then -(1 / 2) else 2

/-- An evidential variable whose observed value `7` is NOT the first element
of its domain `[5, 7]`. -/
def obsVar : Var := ⟨2, [5, 7], true, 7⟩

/-- An evidential variable whose domain has been reduced to its observed
value. -/
def goodVar : Var := ⟨3, [4], true, 4⟩

/-- An incoming message distinguishing the value `7` from the value `5`. -/
noncomputable def obsMsg : Val → ℝ := fun v => if v = 7 then 1 else 0

/-- A bucket over `witVar` with one constant input log-factor and no free
variables. -/
noncomputable def witBucket : Bucket := ⟨witVar, [⟨[witVar], fun _ => 0⟩], [], []⟩

/-- An engine state whose query is empty. -/
def emptyQueryState : AlgState := ⟨[], [], [], [], none, none⟩

/-- A singleton factor graph used with `emptyQueryState`. -/
def witGraph : FGraph := ⟨1, [[0]]⟩

/-! ## Helper lemmas -/

/-- Summing a list of divisions by a common constant divides the summed list. -/
lemma list_sum_map_div {α : Type} (f : α → ℝ) (c : ℝ) (l : List α) :
    (l.map (fun x => f x / c)).sum = (l.map f).sum / c := by
  induction l with
  | nil => simp
  | cons x xs ih => simp [ih, add_div]

/-- Looking up a key of the list in the association list that tabulates `g`
yields the tabulated value. -/
lemma lookup_map_self {α β : Type} [BEq α] [LawfulBEq α] (g : α → β) (l : List α) (v : α)
    (hv : v ∈ l) : (l.map (fun x => (x, g x))).lookup v = some (g v) := by
  induction l with
  | nil => cases hv
  | cons x xs ih =>
    by_cases hx : v = x
    · subst hx
      simp [List.lookup]
    · have hmem : v ∈ xs := by
        rcases List.mem_cons.mp hv with h | h
        · exact absurd h hx
        · exact h
      have hbeq : (v == x) = false := by
        simp [beq_eq_false_iff_ne, hx]
      simp [List.lookup, hbeq, ih hmem]

/-- Lemma: `safeLog` succeeds with the real logarithm on positive arguments. -/
lemma safeLog_ok_of_pos {x : ℝ} (h : 0 < x) : safeLog x = .ok (Real.log x) := by
  simp [safeLog, h]

/-- Lemma: `safeLog` raises the math-domain error exactly on non-positive arguments. -/
lemma safeLog_error_iff (x : ℝ) : safeLog x = .error .mathDomain ↔ ¬ 0 < x := by
  by_cases h : 0 < x <;> simp [safeLog, h]

/-- Lemma: `mapValuesDict` succeeds and tabulates the values when every value
expression succeeds. -/
lemma mapValuesDict_ok_of {κ : Type} (g : κ → Except BPNumError ℝ) (r : κ → ℝ)
    (l : List κ) (h : ∀ k ∈ l, g k = .ok (r k)) :
    mapValuesDict g l = .ok (l.map (fun k => (k, r k))) := by
  induction l with
  | nil => simp [mapValuesDict]
  | cons k ks ih =>
    have hk := h k (List.mem_cons_self k ks)
    have hks := ih (fun k' hk' => h k' (List.mem_cons_of_mem _ hk'))
    simp only [mapValuesDict, hk, hks, List.map_cons]
    rfl

/-- Lemma: `mapValuesDict` raises the math-domain error exactly when some value
expression raises it. -/
lemma mapValuesDict_error_iff {κ : Type} (g : κ → Except BPNumError ℝ) (l : List κ) :
    mapValuesDict g l = .error .mathDomain ↔ ∃ k ∈ l, g k = .error .mathDomain := by
  induction l with
  | nil => simp [mapValuesDict]
  | cons k ks ih =>
    cases hk : g k with
    | error e =>
      cases e
      simp only [mapValuesDict, hk]
      constructor
      · intro _
        exact ⟨k, List.mem_cons_self k ks, hk⟩
      · intro _
        rfl
    | ok r =>
      cases hrest : mapValuesDict g ks with
      | error e =>
        cases e
        simp only [mapValuesDict, hk, hrest]
        constructor
        · intro _
          rcases ih.mp hrest with ⟨k', hk', hgk'⟩
          exact ⟨k', List.mem_cons_of_mem _ hk', hgk'⟩
        · intro _
          rfl
      | ok rest =>
        have hok : mapValuesDict g (k :: ks) = .ok ((k, r) :: rest) := by
          simp only [mapValuesDict, hk, hrest]
          rfl
        rw [hok]
        constructor
        · intro hcontra
          cases hcontra
        · rintro ⟨k', hk', hgk'⟩
          rcases List.mem_cons.mp hk' with rfl | hmem
          · rw [hk] at hgk'
            cases hgk'
          · have hcontra : mapValuesDict g ks = .error .mathDomain := ih.mpr ⟨k', hmem, hgk'⟩
            rw [hrest] at hcontra
            cases hcontra

/-- Binding an `Except` into a pure continuation errors exactly when the bound
computation errors. -/
lemma bind_pure_error_iff (e : Except BPNumError ℝ) (φ : ℝ → ℝ) (er : BPNumError) :
    (do
      let lg ← e
      pure (φ lg) : Except BPNumError ℝ) = .error er ↔ e = .error er := by
  cases e <;> simp [Except.bind]

/-- Excluding one id from a summed list of message values equals summing with
that id's contribution replaced by zero. -/
lemma filter_ne_map_sum (l : List ℕ) (t : ℕ) (f : ℕ → ℝ) :
    ((l.filter (fun a => a != t)).map f).sum
      = (l.map (fun a => if a = t then 0 else f a)).sum := by
  induction l with
  | nil => simp
  | cons x xs ih =>
    by_cases hx : x = t
    · subst hx
      simp [List.filter_cons, ih]
    · simp [List.filter_cons, hx, ih]

/-- Each non-normalized distribution value is strictly positive. -/
lemma nnValue_pos (msgs : List (Val → ℝ)) (v : Val) : 0 < nnValue msgs v :=
  Real.exp_pos _

/-- The normalization constant is strictly positive on a nonempty domain. -/
lemma normConst_pos (msgs : List (Val → ℝ)) (domain : List Val) (hne : domain ≠ []) :
    0 < normConst msgs domain := by
  refine List.sum_pos _ (fun x hx => ?_) (by simpa using hne)
  rcases List.mem_map.mp hx with ⟨v, _, rfl⟩
  exact nnValue_pos msgs v

/-- C1: For every run of the Belief Propagation engine that completes on a
valid tree-structured factor graph with strictly positive factors, the
returned distribution maps each value of the query variable's domain, wrapped
as a length-one tuple, to a probability; every probability is non-negative and
the probabilities sum to 1.  The `Nodup` hypothesis reflects that a valid
variable's ordered domain lists each value once (so the association list
faithfully models the Python dict). -/
theorem distribution_sums_to_one (msgs : List (Val → ℝ)) (domain : List Val)
    (hne : domain ≠ []) (hnd : domain.Nodup) :
    (∀ p ∈ computeDistribution msgs domain, (∃ v ∈ domain, p.1 = [v]) ∧ 0 ≤ p.2)
    ∧ ((computeDistribution msgs domain).map Prod.snd).sum = 1 := by
  have hN : 0 < normConst msgs domain := normConst_pos msgs domain hne
  constructor
  · intro p hp
    rcases List.mem_map.mp hp with ⟨v, hv, rfl⟩
    exact ⟨⟨v, hv, rfl⟩, le_of_lt (div_pos (nnValue_pos msgs v) hN)⟩
  · have : ((computeDistribution msgs domain).map Prod.snd)
        = domain.map (fun v => nnValue msgs v / normConst msgs domain) := by
      simp [computeDistribution, List.map_map, Function.comp]
    rw [this, list_sum_map_div]
    exact div_self (ne_of_gt hN)

/-- Witness for C1 at the concrete domain `[0, 1]` with no incoming
messages. -/
theorem distribution_sums_to_one_witness :
    (([0, 1] : List Val) ≠ [] ∧ ([0, 1] : List Val).Nodup)
    ∧ ((∀ p ∈ computeDistribution [] [0, 1], (∃ v ∈ ([0, 1] : List Val), p.1 = [v]) ∧ 0 ≤ p.2)
       ∧ ((computeDistribution [] [0, 1]).map Prod.snd).sum = 1) :=
  ⟨⟨by decide, by decide⟩, distribution_sums_to_one [] [0, 1] (by decide) (by decide)⟩

/-- C5: The variable-to-factor message from `x` to the factor `toFactor`, at
every value `v` of `x`'s domain, equals the sum of `x`'s incoming
factor-to-variable messages from every incident factor other than `toFactor`
evaluated at `v`; and the leaf variable-to-factor message is `0` at every
value of the domain. -/
theorem variable_to_factor_message_value (x : Var) (xFactors : List ℕ) (toFactor : ℕ)
    (incoming : ℕ → Val → ℝ) (v : Val) (hv : v ∈ x.domain) :
    (variableToFactorMessageNotFromLeaf x xFactors toFactor incoming).lookup v
      = some ((xFactors.map (fun fid => if fid = toFactor then 0 else incoming fid v)).sum)
    ∧ (variableToFactorMessageFromLeaf x).lookup v = some 0 := by
  constructor
  · have h := lookup_map_self
      (fun w => ((xFactors.filter (fun fid => fid != toFactor)).map
        (fun fid => incoming fid w)).sum) x.domain v hv
    rw [variableToFactorMessageNotFromLeaf, h]
    simp only [filter_ne_map_sum]
  · exact lookup_map_self (fun _ : Val => (0 : ℝ)) x.domain v hv

/-- Witness for C5 at the variable `witVar`, value `0`, a two-factor incident
list and constant incoming messages. -/
theorem variable_to_factor_message_value_witness :
    (0 : Val) ∈ witVar.domain
    ∧ ((variableToFactorMessageNotFromLeaf witVar [4, 7] 7 (fun _ _ => 1)).lookup 0
        = some ((([4, 7] : List ℕ).map (fun fid => if fid = 7 then 0 else (1 : ℝ))).sum)
      ∧ (variableToFactorMessageFromLeaf witVar).lookup 0 = some 0) :=
  ⟨by decide, variable_to_factor_message_value witVar [4, 7] 7 (fun _ _ => 1) 0 (by decide)⟩

/-- C2: For every interior factor-to-variable message from a factor to its one
remaining unpassed variable `x`, and every value `v` of `x`'s domain, the
computed message value equals `evidential_sum + M + log(Σ over all joint
free-variable assignments of f(assignment, x = v) · exp(Σ free incoming
message values at that assignment − M))`, where `M` is the maximum free
incoming message value (0 when there are none) and `evidential_sum` is the
sum of the evidential incoming messages at their fixed values.  The
positivity hypothesis keeps `math.log` inside its domain. -/
theorem interior_factor_to_variable_message_formula
    (f : List (Var × Val) → ℝ) (freeVars : List Var) (freeMsgs : List (Val → ℝ))
    (evidVars : List Var) (evidMsgs : List (Val → ℝ)) (x : Var)
    (hpos : ∀ v ∈ x.domain,
      0 < interiorLogArg f freeVars freeMsgs (maxMessage freeVars freeMsgs) x v) :
    ∃ m, factorToVariableMessageNotFromLeaf f freeVars freeMsgs evidVars evidMsgs x = .ok m
      ∧ ∀ v ∈ x.domain, m.lookup v = some
          (evidentialMessagesSum evidVars evidMsgs + maxMessage freeVars freeMsgs
            + Real.log (((evaluateVariables freeVars).map (fun a =>
                f ((freeVars.zip a) ++ [(x, v)])
                  * Real.exp (((freeMsgs.zip a).map (fun p => p.1 p.2)).sum
                      - maxMessage freeVars freeMsgs))).sum)) := by
  refine ⟨x.domain.map (fun v => (v,
    evidentialMessagesSum evidVars evidMsgs + maxMessage freeVars freeMsgs
      + Real.log (interiorLogArg f freeVars freeMsgs (maxMessage freeVars freeMsgs) x v))),
    ?_, ?_⟩
  · apply mapValuesDict_ok_of
    intro v hv
    rw [safeLog_ok_of_pos (hpos v hv)]
    rfl
  · intro v hv
    rw [lookup_map_self (fun v =>
      evidentialMessagesSum evidVars evidMsgs + maxMessage freeVars freeMsgs
        + Real.log (interiorLogArg f freeVars freeMsgs (maxMessage freeVars freeMsgs) x v))
      x.domain v hv]
    rfl

/-- Witness for C2 with a constant factor `1`, no free and no evidential
other variables, at the destination variable `witVar`. -/
theorem interior_factor_to_variable_message_formula_witness :
    (∀ v ∈ witVar.domain,
      0 < interiorLogArg (fun _ => 1) [] [] (maxMessage [] []) witVar v)
    ∧ ∃ m, factorToVariableMessageNotFromLeaf (fun _ => 1) [] [] [] [] witVar = .ok m
        ∧ ∀ v ∈ witVar.domain, m.lookup v = some
            (evidentialMessagesSum [] [] + maxMessage [] []
              + Real.log (((evaluateVariables []).map (fun a =>
                  (fun _ => (1 : ℝ)) ((([] : List Var).zip a) ++ [(witVar, v)])
                    * Real.exp ((((([] : List (Val → ℝ)).zip a)).map
                        (fun p => p.1 p.2)).sum - maxMessage [] []))).sum)) := by
  have hpos : ∀ v ∈ witVar.domain,
      0 < interiorLogArg (fun _ => 1) [] [] (maxMessage [] []) witVar v := by
    intro v _
    simp [interiorLogArg, evaluateVariables, maxMessage]
  exact ⟨hpos, interior_factor_to_variable_message_formula (fun _ => 1) [] [] [] [] witVar hpos⟩

/-- A sum of exponentials over a nonempty list is strictly positive. -/
lemma sum_map_exp_pos (l : List ℝ) (h : l ≠ []) : 0 < (l.map Real.exp).sum := by
  refine List.sum_pos _ (fun x hx => ?_) (by simpa using h)
  rcases List.mem_map.mp hx with ⟨s, _, rfl⟩
  exact Real.exp_pos s

/-- Shifting every exponent by `−M` factors `exp (−M)` out of the sum. -/
lemma sum_exp_shift (l : List ℝ) (M : ℝ) :
    (l.map (fun s => Real.exp (s - M))).sum = Real.exp (-M) * (l.map Real.exp).sum := by
  induction l with
  | nil => simp
  | cons x xs ih =>
    simp only [List.map_cons, List.sum_cons, ih]
    rw [show x - M = -M + x from by ring, Real.exp_add]
    ring

/-- The shifted sum of exponentials is strictly positive on a nonempty
list. -/
lemma sum_exp_shift_pos (l : List ℝ) (M : ℝ) (h : l ≠ []) :
    0 < (l.map (fun s => Real.exp (s - M))).sum := by
  rw [sum_exp_shift]
  exact mul_pos (Real.exp_pos _) (sum_map_exp_pos l h)

/-- Max-shift stabilization is sound: adding the shift back after the
logarithm recovers the unshifted log-sum-exp. -/
lemma log_sum_exp_shift (l : List ℝ) (M : ℝ) (h : l ≠ []) :
    M + Real.log ((l.map (fun s => Real.exp (s - M))).sum)
      = Real.log ((l.map Real.exp).sum) := by
  rw [sum_exp_shift,
    Real.log_mul (ne_of_gt (Real.exp_pos _)) (ne_of_gt (sum_map_exp_pos l h)),
    Real.log_exp]
  ring

/-- C3: For every bucket whose evidential and free variables have been set,
`compute_output_log_factor` succeeds and its value at every joint assignment
of the free variables equals the brute-force unstabilized log-sum-exp
`log(Σ_value exp(Σ inputs at (assignment, value)))` over the bucket
variable's domain.  The nonemptiness hypotheses keep the Python `max` calls
inside their domain. -/
theorem bucket_output_log_factor_equals_bruteforce (b : Bucket)
    (hdom : b.bucketVariable.domain ≠ []) (hfac : b.inputLogFactors ≠ []) :
    ∃ d, computeOutputLogFactor b = .ok d
      ∧ ∀ fv ∈ evaluateVariables b.freeVariables,
          d.lookup fv = some (bucketBruteForceValue b fv) := by
  have key : ∀ fv, bucketOutputValue b fv = .ok (bucketBruteForceValue b fv) := by
    intro fv
    have hlne : b.bucketVariable.domain.map
        (fun value => (bucketInputValues b (b.freeVariables.zip fv) value).sum) ≠ [] := by
      simpa using hdom
    have hS : (b.bucketVariable.domain.map (fun value =>
        Real.exp ((bucketInputValues b (b.freeVariables.zip fv) value).sum
          - bucketMaxLogFactor b (b.freeVariables.zip fv)))).sum
        = ((b.bucketVariable.domain.map
            (fun value => (bucketInputValues b (b.freeVariables.zip fv) value).sum)).map
            (fun s => Real.exp (s - bucketMaxLogFactor b (b.freeVariables.zip fv)))).sum := by
      rw [List.map_map]
      rfl
    have hSpos : 0 < (b.bucketVariable.domain.map (fun value =>
        Real.exp ((bucketInputValues b (b.freeVariables.zip fv) value).sum
          - bucketMaxLogFactor b (b.freeVariables.zip fv)))).sum := by
      rw [hS]
      exact sum_exp_shift_pos _ _ hlne
    have hun : bucketOutputValue b fv
        = (do
            let lg ← safeLog ((b.bucketVariable.domain.map (fun value =>
              Real.exp ((bucketInputValues b (b.freeVariables.zip fv) value).sum
                - bucketMaxLogFactor b (b.freeVariables.zip fv)))).sum)
            pure (bucketMaxLogFactor b (b.freeVariables.zip fv) + lg)) := rfl
    rw [hun, safeLog_ok_of_pos hSpos]
    show Except.ok (bucketMaxLogFactor b (b.freeVariables.zip fv)
        + Real.log ((b.bucketVariable.domain.map (fun value =>
            Real.exp ((bucketInputValues b (b.freeVariables.zip fv) value).sum
              - bucketMaxLogFactor b (b.freeVariables.zip fv)))).sum)) = _
    rw [hS, log_sum_exp_shift _ _ hlne, List.map_map]
    rfl
  refine ⟨(evaluateVariables b.freeVariables).map (fun fv =>
    (fv, bucketBruteForceValue b fv)), ?_, ?_⟩
  · exact mapValuesDict_ok_of _ _ _ (fun fv _ => key fv)
  · intro fv hfv
    exact lookup_map_self (bucketBruteForceValue b) (evaluateVariables b.freeVariables) fv hfv

/-- Witness for C3 at the concrete bucket `witBucket`. -/
theorem bucket_output_log_factor_equals_bruteforce_witness :
    (witBucket.bucketVariable.domain ≠ [] ∧ witBucket.inputLogFactors ≠ [])
    ∧ ∃ d, computeOutputLogFactor witBucket = .ok d
      ∧ ∀ fv ∈ evaluateVariables witBucket.freeVariables,
          d.lookup fv = some (bucketBruteForceValue witBucket fv) := by
  have h1 : witBucket.bucketVariable.domain ≠ [] := by simp [witBucket, witVar]
  have h2 : witBucket.inputLogFactors ≠ [] := by simp [witBucket]
  exact ⟨⟨h1, h2⟩, bucket_output_log_factor_equals_bruteforce witBucket h1 h2⟩

/-- C7 (amended): In the leaf factor-to-variable rule the run fails with the
math-domain error exactly when the factor is non-positive at some domain
value of the destination; in the interior rule it fails exactly when the
logarithm's summed argument is non-positive for some destination value — so
a negative factor value whose contribution is masked by a positive sum is
not detected. -/
theorem log_domain_error_characterization (f : List (Var × Val) → ℝ)
    (freeVars : List Var) (freeMsgs : List (Val → ℝ))
    (evidVars : List Var) (evidMsgs : List (Val → ℝ)) (x : Var) :
    (factorToVariableMessageFromLeaf f x = .error .mathDomain
      ↔ ∃ v ∈ x.domain, ¬ 0 < f [(x, v)])
    ∧ (factorToVariableMessageNotFromLeaf f freeVars freeMsgs evidVars evidMsgs x
          = .error .mathDomain
      ↔ ∃ v ∈ x.domain,
          ¬ 0 < interiorLogArg f freeVars freeMsgs (maxMessage freeVars freeMsgs) x v) := by
  constructor
  · rw [factorToVariableMessageFromLeaf, mapValuesDict_error_iff]
    simp only [safeLog_error_iff]
  · have hun : factorToVariableMessageNotFromLeaf f freeVars freeMsgs evidVars evidMsgs x
        = mapValuesDict (fun v => do
            let lg ← safeLog
              (interiorLogArg f freeVars freeMsgs (maxMessage freeVars freeMsgs) x v)
            pure (evidentialMessagesSum evidVars evidMsgs
              + maxMessage freeVars freeMsgs + lg)) x.domain := rfl
    rw [hun, mapValuesDict_error_iff]
    simp only [bind_pure_error_iff, safeLog_error_iff]

/-- C7 counterexample: the factor `cexF` is negative at the assignment
`cexY = 1` (reached while summing over the free variable `cexY`), yet the
interior message computation succeeds because the summed argument of the
logarithm stays positive — the run does not fail. -/
theorem negative_factor_not_detected :
    cexF [(cexY, 1), (cexX, 0)] < 0
    ∧ ∃ m, factorToVariableMessageNotFromLeaf cexF [cexY] [fun _ => 0] [] [] cexX
        = .ok m := by
  constructor
  · have hmem : ((cexY, (1 : Val)) ∈ [((cexY : Var), (1 : Val)), (cexX, 0)]) := by decide
    simp only [cexF, if_pos hmem]
    norm_num
  · refine ⟨_, mapValuesDict_ok_of _ (fun v =>
      evidentialMessagesSum [] [] + maxMessage [cexY] [fun _ => 0]
        + Real.log (interiorLogArg cexF [cexY] [fun _ => 0]
            (maxMessage [cexY] [fun _ => 0]) cexX v)) _ (fun v hv => ?_)⟩
    have hv0 : v = 0 := by simpa [cexX] using hv
    subst hv0
    have hpos : 0 < interiorLogArg cexF [cexY] [fun _ => 0]
        (maxMessage [cexY] [fun _ => 0]) cexX 0 := by
      have h1 : cexF [(cexY, 0), (cexX, 0)] = 2 := by
        have : ¬ ((cexY, (1 : Val)) ∈ [((cexY : Var), (0 : Val)), (cexX, 0)]) := by decide
        simp only [cexF, if_neg this]
      have h2 : cexF [(cexY, 1), (cexX, 0)] = -(1 / 2) := by
        have : ((cexY, (1 : Val)) ∈ [((cexY : Var), (1 : Val)), (cexX, 0)]) := by decide
        simp only [cexF, if_pos this]
      have hM : maxMessage [cexY] [fun _ => (0 : ℝ)] = 0 := by
        simp [maxMessage, listMax, cexY]
      have hev : evaluateVariables [cexY] = [[0], [1]] := by decide
      simp only [interiorLogArg, hev, hM]
      norm_num [h1, h2]
    rw [safeLog_ok_of_pos hpos]
    rfl

/-- C10: The interior rule evaluates each evidential incoming message at the
FIRST element of that variable's domain, so it agrees with evaluating at the
observed value precisely when every evidential domain has been reduced to
the observed value; for `obsVar`, whose domain `[5, 7]` starts with `5` but
whose observed value is `7`, the two evaluations differ. -/
theorem evidential_messages_evaluated_at_domain_head (evidVars : List Var)
    (evidMsgs : List (Val → ℝ))
    (h : ∀ w ∈ evidVars, w.domain.headI = w.observed) :
    evidentialMessagesSum evidVars evidMsgs
      = evidentialMessagesSumAtObserved evidVars evidMsgs
    ∧ evidentialMessagesSum [obsVar] [obsMsg]
      ≠ evidentialMessagesSumAtObserved [obsVar] [obsMsg] := by
  constructor
  · unfold evidentialMessagesSum evidentialMessagesSumAtObserved evidentialValues
    have hmap : evidVars.map (fun w => w.domain.headI) = evidVars.map (fun w => w.observed) :=
      List.map_congr_left h
    rw [hmap]
  · norm_num [evidentialMessagesSum, evidentialMessagesSumAtObserved, evidentialValues,
      obsVar, obsMsg]

/-- Witness for C10 with the evidential variable `goodVar`, whose domain is
reduced to its observed value. -/
theorem evidential_messages_evaluated_at_domain_head_witness :
    (∀ w ∈ [goodVar], w.domain.headI = w.observed)
    ∧ (evidentialMessagesSum [goodVar] [obsMsg]
        = evidentialMessagesSumAtObserved [goodVar] [obsMsg]
      ∧ evidentialMessagesSum [obsVar] [obsMsg]
        ≠ evidentialMessagesSumAtObserved [obsVar] [obsMsg]) :=
  ⟨by decide, evidential_messages_evaluated_at_domain_head [goodVar] [obsMsg] (by decide)⟩

/-- Caching a message makes the store contain its key. -/
lemma contains_cacheMsg_self (ms : Messages) (m : Message) :
    (ms.cacheMsg m).contains m.fromId m.toId = true := by
  simp [Messages.cacheMsg, Messages.contains, List.lookup]

/-- Caching a message preserves every key already contained. -/
lemma contains_cacheMsg_of_contains (ms : Messages) (m : Message) (a b : ℕ)
    (h : ms.contains a b = true) : (ms.cacheMsg m).contains a b = true := by
  simp only [Messages.contains, Messages.cacheMsg] at *
  cases hbeq : ((a, b) == (m.fromId, m.toId)) with
  | true => simp [List.lookup, hbeq]
  | false => simp [List.lookup, hbeq, h]

/-- C4: Across any sequence of message-computing operations (spanning any
number of runs sharing the same evidence), the message for a given (origin,
destination) key is freshly computed at most once, and not at all when the
evidence-keyed store already contains it — every operation first checks the
store; and creating the per-evidence cache when the evidence key already
exists leaves the cache dictionary unchanged. -/
theorem message_computed_at_most_once (ms : Messages) (ops : List MsgOp) (k : ℕ × ℕ)
    (caches : List (List (ℕ × Val) × Messages)) (ev : List (ℕ × Val))
    (hev : (caches.lookup ev).isSome = true) :
    countFresh ms ops k ≤ (if ms.contains k.1 k.2 = true then 0 else 1)
    ∧ createMessagesCacheIfNecessary caches ev = caches := by
  refine ⟨?_, by simp [createMessagesCacheIfNecessary, hev]⟩
  induction ops generalizing ms with
  | nil =>
    simp only [countFresh]
    exact Nat.zero_le _
  | cons op rest ih =>
    by_cases hc : ms.contains op.fromId op.toId = true
    · have hr : computeMessageIfNecessary ms op.fromId op.toId op.values = (ms, false) := by
        simp [computeMessageIfNecessary, hc]
      simp only [countFresh, hr]
      simpa using ih ms
    · have hr : computeMessageIfNecessary ms op.fromId op.toId op.values
          = (ms.cacheMsg ⟨op.fromId, op.toId, op.values⟩, true) := by
        simp [computeMessageIfNecessary, hc]
      by_cases hk : (op.fromId, op.toId) = k
      · subst hk
        have hck : (ms.cacheMsg ⟨op.fromId, op.toId, op.values⟩).contains
            (op.fromId, op.toId).1 (op.fromId, op.toId).2 = true := by
          simpa using contains_cacheMsg_self ms ⟨op.fromId, op.toId, op.values⟩
        have hle2 := ih (ms.cacheMsg ⟨op.fromId, op.toId, op.values⟩)
        rw [if_pos hck] at hle2
        have h0 : countFresh (ms.cacheMsg ⟨op.fromId, op.toId, op.values⟩) rest
            (op.fromId, op.toId) = 0 := Nat.le_zero.mp hle2
        simp only [countFresh, hr]
        simp [h0, hc]
      · have hle := ih (ms.cacheMsg ⟨op.fromId, op.toId, op.values⟩)
        simp only [countFresh, hr]
        by_cases hmk : ms.contains k.1 k.2 = true
        · have hck := contains_cacheMsg_of_contains ms
            ⟨op.fromId, op.toId, op.values⟩ k.1 k.2 hmk
          rw [if_pos hck] at hle
          simpa [hk, hmk] using hle
        · have hbound : (if (ms.cacheMsg ⟨op.fromId, op.toId, op.values⟩).contains
              k.1 k.2 = true then 0 else 1) ≤ 1 := by
            split
            · exact Nat.zero_le 1
            · exact le_refl 1
          simpa [hk, hmk] using le_trans hle hbound

/-- Witness for C4 at the empty store, the same operation performed twice,
and a cache dictionary already holding the empty-evidence key. -/
theorem message_computed_at_most_once_witness :
    ((([([], emptyMessages)] : List (List (ℕ × Val) × Messages)).lookup []).isSome = true)
    ∧ (countFresh emptyMessages [⟨0, 1, []⟩, ⟨0, 1, []⟩] (0, 1)
        ≤ (if emptyMessages.contains 0 1 = true then 0 else 1)
      ∧ createMessagesCacheIfNecessary [([], emptyMessages)] [] = [([], emptyMessages)]) :=
  ⟨rfl, message_computed_at_most_once emptyMessages [⟨0, 1, []⟩, ⟨0, 1, []⟩] (0, 1)
    [([], emptyMessages)] [] rfl⟩

/-- C6 counterexample: on the cyclic factor graph `cyclicGraph` the engine
does NOT detect or reject the malformed structure: after leaf seeding the
loop state is a fixpoint of the loop step, the running condition remains
true, and a bounded run (5 iterations) produces no result. -/
theorem cyclic_graph_not_rejected :
    runningCondition cyclicGraph 0 (initMainLoop cyclicGraph 0) = true
    ∧ loopStep cyclicGraph 0 (initMainLoop cyclicGraph 0)
        = some (initMainLoop cyclicGraph 0)
    ∧ runLoopFuel cyclicGraph 0 5 (initMainLoop cyclicGraph 0) = none := by
  decide

/-- C6 (amended): On a factor graph containing a cycle the engine has no
cycle detection and no iteration bound: for the cyclic graph `cyclicGraph`
the relay loop's stop condition is never satisfied, so `run` returns no
result no matter how many iterations are allowed. -/
theorem cyclic_graph_loop_never_stops (fuel : ℕ) :
    runLoopFuel cyclicGraph 0 fuel (initMainLoop cyclicGraph 0) = none := by
  have hc : runningCondition cyclicGraph 0 (initMainLoop cyclicGraph 0) = true := by
    decide
  have hs : loopStep cyclicGraph 0 (initMainLoop cyclicGraph 0)
      = some (initMainLoop cyclicGraph 0) := by decide
  induction fuel with
  | zero => simp [runLoopFuel, hc]
  | succ n ih => simp [runLoopFuel, hc, hs, ih]

/-- The three validation branches of `runBP` return the corresponding error
with the state unchanged. -/
lemma runBP_invalid_cases (g : FGraph) (fuel : ℕ) (st : AlgState) :
    (st.query.length = 0 → runBP g fuel st = (.error .emptyQuery, st))
    ∧ (¬ st.query.length = 0 → 1 < st.query.length →
        runBP g fuel st = (.error .multiVariableQuery, st))
    ∧ (¬ st.query.length = 0 → ¬ 1 < st.query.length →
        st.query.any (fun q => st.evidence.any (fun p => p.1 == q)) = true →
        runBP g fuel st = (.error .queryAndEvidenceIntersect, st)) :=
  ⟨fun h1 => by simp [runBP, h1],
   fun h1 h2 => by simp [runBP, h1, h2],
   fun h1 h2 h3 => by simp [runBP, h1, h2, h3]⟩

/-- C9: If any of `run`'s validation checks fails, the engine state — the
message caches, the previously computed distribution, the query-variable
field (and, in the source, the traversal fields, which `run` first touches
only after validation) — is exactly the state before the call. -/
theorem run_validation_failure_preserves_state (g : FGraph) (fuel : ℕ) (st : AlgState)
    (h : st.query = [] ∨ 1 < st.query.length
      ∨ st.query.any (fun q => st.evidence.any (fun p => p.1 == q)) = true) :
    (runBP g fuel st).2 = st := by
  rcases runBP_invalid_cases g fuel st with ⟨h1, h2, h3⟩
  by_cases hq : st.query.length = 0
  · rw [h1 hq]
  · by_cases hm : 1 < st.query.length
    · rw [h2 hq hm]
    · rcases h with he | hm' | hi
      · exact absurd (by simp [he]) hq
      · exact absurd hm' hm
      · rw [h3 hq hm hi]

/-- Witness for C9 at the empty-query state. -/
theorem run_validation_failure_preserves_state_witness :
    (emptyQueryState.query = [] ∨ 1 < emptyQueryState.query.length
      ∨ emptyQueryState.query.any
          (fun q => emptyQueryState.evidence.any (fun p => p.1 == q)) = true)
    ∧ (runBP witGraph 3 emptyQueryState).2 = emptyQueryState :=
  ⟨Or.inl rfl,
   run_validation_failure_preserves_state witGraph 3 emptyQueryState (Or.inl rfl)⟩

/-- C8: A run with an empty query, a query of more than one variable, or a
query variable that also occurs in the evidence fails with a validation
error, reported before any message computation or distribution assembly: the
message caches and the distribution field are untouched. -/
theorem run_validation_error_reported_first (g : FGraph) (fuel : ℕ) (st : AlgState)
    (h : st.query = [] ∨ 1 < st.query.length
      ∨ st.query.any (fun q => st.evidence.any (fun p => p.1 == q)) = true) :
    (∃ e, (runBP g fuel st).1 = .error e
      ∧ (e = RunError.emptyQuery ∨ e = RunError.multiVariableQuery
          ∨ e = RunError.queryAndEvidenceIntersect))
    ∧ (runBP g fuel st).2.factorToVariableMessages = st.factorToVariableMessages
    ∧ (runBP g fuel st).2.variableToFactorMessages = st.variableToFactorMessages
    ∧ (runBP g fuel st).2.distribution = st.distribution := by
  rcases runBP_invalid_cases g fuel st with ⟨h1, h2, h3⟩
  by_cases hq : st.query.length = 0
  · rw [h1 hq]
    exact ⟨⟨.emptyQuery, rfl, Or.inl rfl⟩, rfl, rfl, rfl⟩
  · by_cases hm : 1 < st.query.length
    · rw [h2 hq hm]
      exact ⟨⟨.multiVariableQuery, rfl, Or.inr (Or.inl rfl)⟩, rfl, rfl, rfl⟩
    · rcases h with he | hm' | hi
      · exact absurd (by simp [he]) hq
      · exact absurd hm' hm
      · rw [h3 hq hm hi]
        exact ⟨⟨.queryAndEvidenceIntersect, rfl, Or.inr (Or.inr rfl)⟩, rfl, rfl, rfl⟩

/-- Witness for C8 at the empty-query state. -/
theorem run_validation_error_reported_first_witness :
    (emptyQueryState.query = [] ∨ 1 < emptyQueryState.query.length
      ∨ emptyQueryState.query.any
          (fun q => emptyQueryState.evidence.any (fun p => p.1 == q)) = true)
    ∧ ((∃ e, (runBP witGraph 3 emptyQueryState).1 = .error e
        ∧ (e = RunError.emptyQuery ∨ e = RunError.multiVariableQuery
            ∨ e = RunError.queryAndEvidenceIntersect))
      ∧ (runBP witGraph 3 emptyQueryState).2.factorToVariableMessages
          = emptyQueryState.factorToVariableMessages
      ∧ (runBP witGraph 3 emptyQueryState).2.variableToFactorMessages
          = emptyQueryState.variableToFactorMessages
      ∧ (runBP witGraph 3 emptyQueryState).2.distribution
          = emptyQueryState.distribution) :=
  ⟨Or.inl rfl,
   run_validation_error_reported_first witGraph 3 emptyQueryState (Or.inl rfl)⟩

end PyB4ML
